import Mathlib

/-!
Verification of the bitfocus/updates-api core: the release/version advisory
state machine, the release-snapshot refresh, and the usage aggregation engine,
shallowly embedded from the TypeScript sources.

Conventions of the embedding:
* JavaScript strings are Lean `String`; `s.slice(0, n)` is `strTake s n`.
* The persistent store tables are total functions from their key tuples to
  `Option` of the stored row; a Prisma `upsert` is `mapWrite`, a `deleteMany`
  filters keys to `none`.
* Numeric counts are `Int` (the wire schema admits any number; `Math.max`
  and `+` on reported counts are the only operations used).
* External library calls with no logic in this repository (node-semver
  `parse`/`coerce`, the md5 digest) are passed in as function parameters.
* Timestamps (`new Date()`, the derived midnight-UTC day) are opaque
  parameters `now : Int` and `day : Nat`.
-/

set_option autoImplicit false

namespace UpdatesApi

/-- JavaScript `s.slice(0, n)` for a nonnegative literal `n`: the first `n`
characters of the string. -/
def strTake (s : String) (n : Nat) : String :=
  ⟨s.data.take n⟩

/-- A store table keyed by `K`: `none` means no row for that key. -/
def Table (K V : Type) : Type :=
  K → Option V

/-- A Prisma `upsert` against a key: afterwards the key holds `v` whether or
not a row existed. -/
def mapWrite {K V : Type} [DecidableEq K] (db : Table K V) (k : K) (v : V) : Table K V :=
  fun k2 => if k2 = k then some v else db k2

/-- The last element of the list satisfying `p`, if any: the survivor of a
sequence of overwrites. -/
def findLastA {α : Type} (p : α → Bool) : List α → Option α
  | [] => none
  | a :: l =>
    match findLastA p l with
    | some b => some b
    | none => if p a then some a else none

theorem findLastA_nil {α : Type} (p : α → Bool) : findLastA p [] = none := rfl

theorem findLastA_mem {α : Type} (p : α → Bool) {l : List α} {a : α}
    (h : findLastA p l = some a) : a ∈ l ∧ p a = true := by
  induction l with
  | nil => simp [findLastA] at h
  | cons b l ih =>
    rw [findLastA] at h
    cases hfl : findLastA p l with
    | some c =>
      rw [hfl] at h
      obtain ⟨hm, hp⟩ := ih (hfl.trans h)
      exact ⟨List.mem_cons_of_mem _ hm, hp⟩
    | none =>
      rw [hfl] at h
      by_cases hb : p b
      · simp [hb] at h
        exact ⟨h ▸ List.mem_cons_self b l, h ▸ hb⟩
      · simp [hb] at h

theorem findLastA_eq_none {α : Type} (p : α → Bool) {l : List α}
    (h : ∀ a ∈ l, p a = false) : findLastA p l = none := by
  induction l with
  | nil => rfl
  | cons b l ih =>
    rw [findLastA, ih (fun a ha => h a (List.mem_cons_of_mem _ ha))]
    simp [h b (List.mem_cons_self b l)]

theorem findLastA_append {α : Type} (p : α → Bool) (l1 l2 : List α) :
    findLastA p (l1 ++ l2)
      = match findLastA p l2 with
        | some a => some a
        | none => findLastA p l1 := by
  induction l1 with
  | nil => cases h : findLastA p l2 <;> simp [h, findLastA]
  | cons b l ih =>
    rw [List.cons_append, findLastA, ih, findLastA]
    cases findLastA p l2 <;> cases findLastA p l <;> simp

/-- A left fold of upserts is determined by the last write at each key. -/
theorem foldl_mapWrite_apply {α K V : Type} [DecidableEq K] (key : α → K) (val : α → V)
    (L : List α) (db : Table K V) (k : K) :
    (L.foldl (fun d a => mapWrite d (key a) (val a)) db) k
      = ((findLastA (fun a => decide (key a = k)) L).map (fun a => val a)).or (db k) := by
  induction L generalizing db with
  | nil => rfl
  | cons a l ih =>
    rw [List.foldl_cons, ih, findLastA]
    cases findLastA (fun a => decide (key a = k)) l with
    | some b => rfl
    | none =>
      by_cases hk : key a = k
      · simp [mapWrite, hk]
      · simp [mapWrite, hk, Ne.symm hk]

/-! ## Version data (node-semver values reaching this code)

Versions reaching the comparisons in `update.ts` are prerelease-free: the
release snapshot versions come from `semver.coerce` (which drops prerelease
and build), and a build string only reaches a comparison after matching the
known-build regex `major.minor.patch+build-kind-hash`, whose `+` suffix is
semver build metadata, ignored by `semver.lt`/`semver.eq`.  A version value
is therefore its `(major, minor, patch)` triple. -/

structure Semver where
  major : Nat
  minor : Nat
  patch : Nat
deriving DecidableEq, Repr

/-- node-semver `lt` on prerelease-free versions: lexicographic on the
`(major, minor, patch)` triple. -/
def semverLt (a b : Semver) : Prop :=
  a.major < b.major
    ∨ (a.major = b.major
        ∧ (a.minor < b.minor ∨ (a.minor = b.minor ∧ a.patch < b.patch)))

instance (a b : Semver) : Decidable (semverLt a b) := by
  unfold semverLt
  infer_instance

/-- `SemVer.version` (also its `toString`): the canonical `major.minor.patch`. -/
def semverVersionString (v : Semver) : String :=
  toString v.major ++ "." ++ toString v.minor ++ "." ++ toString v.patch

/-- The process-wide snapshot published by `fetchReleases`. -/
structure LatestReleases where
  currentStable : Semver
  oldStable : Semver
deriving DecidableEq, Repr

/-- The `/updates` response: `ok = false` tells the client to retry later. -/
structure UpdatesResponse where
  ok : Bool
  message : String
  link : Option String
deriving DecidableEq, Repr

/-! ## The known-build regex

`update.ts` gates on
`/^v?(\d+)\.(\d+)\.(\d+)\+(\d+)-(.+)-([0-9a-fA-F]{7,40})$/` and uses only the
fifth capture group (the channel kind).  The greedy `(.+)` concedes to the
hash group one character at a time from the right, so the hash is the
shortest all-hex suffix of length 7..40 preceded by a dash and a nonempty
prefix. -/

def isHexChar (c : Char) : Bool :=
  c.isDigit || (decide ('a' ≤ c) && decide (c ≤ 'f')) || (decide ('A' ≤ c) && decide (c ≤ 'F'))

def splitKindHash (cs : List Char) : Option (List Char × List Char) :=
  (List.range' 7 34).findSome? fun hlen =>
    let n := cs.length
    if n ≥ hlen + 2 then
      if decide (cs.get? (n - hlen - 1) = some '-') && (cs.drop (n - hlen)).all isHexChar then
        some (cs.take (n - hlen - 1), cs.drop (n - hlen))
      else none
    else none

def takeDigits (cs : List Char) : List Char × List Char :=
  (cs.takeWhile Char.isDigit, cs.dropWhile Char.isDigit)

/-- The known-build regex match, returning capture group 5 (the channel kind),
the only group the route handler reads. -/
def matchKnownBuild (appBuild : String) : Option String :=
  let cs0 := appBuild.data
  let cs1 := match cs0 with
    | 'v' :: rest => rest
    | _ => cs0
  let (d1, r1) := takeDigits cs1
  if d1.isEmpty then none else
  match r1 with
  | '.' :: r2 =>
    let (d2, r3) := takeDigits r2
    if d2.isEmpty then none else
    match r3 with
    | '.' :: r4 =>
      let (d3, r5) := takeDigits r4
      if d3.isEmpty then none else
      match r5 with
      | '+' :: r6 =>
        let (d4, r7) := takeDigits r6
        if d4.isEmpty then none else
        match r7 with
        | '-' :: r8 =>
          match splitKindHash r8 with
          | some (kind, _) => some ⟨kind⟩
          | none => none
        | _ => none
      | _ => none
    | _ => none
  | _ => none

/-! ## The advisory state machine (`prepareCompanionResponse`) -/

def invalidVersionResponse : UpdatesResponse :=
  ⟨true, "Unable to check updates: Invalid version format", none⟩

def ancientResponse : UpdatesResponse :=
  ⟨true,
    "This is a very old version of Companion. Companion has improved a lot, we strongly recommend updating",
    some "https://bitfocus.io/companion?inapp_ancient"⟩

def unknownFormatResponse : UpdatesResponse :=
  ⟨true, "Unable to check updates: Unknown build format", none⟩

def retryLaterResponse : UpdatesResponse :=
  ⟨false, "", none⟩

def obsoleteResponse (currentStable : Semver) : UpdatesResponse :=
  ⟨true,
    "This version of Companion is outdated and no longer supported. Please update to the latest version v"
      ++ semverVersionString currentStable ++ ".",
    some "https://bitfocus.io/companion?inapp_obsolete"⟩

def newStableResponse (currentStable : Semver) : UpdatesResponse :=
  ⟨true,
    "A new stable version (v" ++ semverVersionString currentStable ++ ") is available.",
    some "https://bitfocus.io/companion?inapp_stable"⟩

def upToDateResponse : UpdatesResponse :=
  ⟨true, "", none⟩

def betaResponse : UpdatesResponse :=
  ⟨true, "Remember, this is a beta version!", some "https://bitfocus.io/companion?inapp_beta"⟩

def experimentalResponse : UpdatesResponse :=
  ⟨true,
    "EXPERIMENTAL: Thank you for testing these experimental features!",
    some "https://bitfocus.io/companion?inapp_beyond"⟩

/-- `prepareCompanionResponse` from `update.ts`, with node-semver loose
parsing passed in as `parse` and the `getLatestReleases()` registry state as
`latest` (`none` before the first successful fetch). -/
def prepareCompanionResponse (parse : String → Option Semver)
    (latest : Option LatestReleases) (appBuild : String) : UpdatesResponse :=
  match parse appBuild with
  | none => invalidVersionResponse
  | some parsedBuild =>
    if parsedBuild.major < 3 then ancientResponse
    else
      match matchKnownBuild appBuild with
      | none => unknownFormatResponse
      | some buildKind =>
        match latest with
        | none => retryLaterResponse
        | some latestReleases =>
          if semverLt parsedBuild
              ⟨latestReleases.oldStable.major, latestReleases.oldStable.minor, 0⟩ then
            obsoleteResponse latestReleases.currentStable
          else if buildKind = "stable" then
            if parsedBuild.major = latestReleases.oldStable.major
                ∧ parsedBuild.minor = latestReleases.oldStable.minor then
              if semverLt parsedBuild latestReleases.oldStable then
                newStableResponse latestReleases.currentStable
              else
                newStableResponse latestReleases.currentStable
            else if parsedBuild.major = latestReleases.currentStable.major
                ∧ parsedBuild.minor = latestReleases.currentStable.minor then
              if parsedBuild = latestReleases.currentStable then
                upToDateResponse
              else if semverLt parsedBuild latestReleases.currentStable then
                newStableResponse latestReleases.currentStable
              else
                newStableResponse latestReleases.currentStable
            else
              newStableResponse latestReleases.currentStable
          else if buildKind = "beta" then betaResponse
          else experimentalResponse

/-- The `/updates` route handler body: only reports for application name
`"companion"` enter the advisory state machine; everything else is answered
`ok` with an empty message. -/
def updatesHandler (parse : String → Option Semver) (latest : Option LatestReleases)
    (appName appBuild : String) : UpdatesResponse :=
  if appName = "companion" then prepareCompanionResponse parse latest appBuild
  else ⟨true, "", none⟩

/-! ## The release refresh (`releases.ts`)

`fetchReleases` is modelled over the registry response list; `Date.now()` is
the parameter `now` and node-semver `coerce` is a function parameter (its
result re-parsed through `semver.parse(coerced.version)` round-trips to the
same value, so the double parse collapses).  A release whose `published_at`
is absent or unparsable (the `isNaN` guard) is `publishedAt = none`.  The JS
`${major}.${minor}` map key is the pair `(major, minor)`, which the string
encodes injectively. -/

structure RawRelease where
  draft : Bool
  prerelease : Bool
  publishedAt : Option Int
  tagName : String
  name : String
deriving DecidableEq, Repr

structure VersionEntry where
  sem : Semver
  raw : String
deriving DecidableEq, Repr

def semverLe (a b : Semver) : Prop :=
  semverLt a b ∨ a = b

instance (a b : Semver) : Decidable (semverLe a b) := by
  unfold semverLe
  infer_instance

/-- `.replace(/^v/, "")`. -/
def stripLeadingV (s : String) : String :=
  match s.data with
  | 'v' :: rest => ⟨rest⟩
  | _ => s

/-- `(r.tag_name || r.name || "").replace(/^v/, "")`. -/
def releaseCandidate (r : RawRelease) : String :=
  stripLeadingV (if r.tagName ≠ "" then r.tagName else if r.name ≠ "" then r.name else "")

def mapGetMinor : List ((Nat × Nat) × VersionEntry) → (Nat × Nat) → Option VersionEntry
  | [], _ => none
  | (k, e) :: rest, key => if k = key then some e else mapGetMinor rest key

def mapSetMinor :
    List ((Nat × Nat) × VersionEntry) → (Nat × Nat) → VersionEntry →
      List ((Nat × Nat) × VersionEntry)
  | [], key, e => [(key, e)]
  | (k, e2) :: rest, key, e =>
    if k = key then (k, e) :: rest else (k, e2) :: mapSetMinor rest key e

/-- One iteration of the release filter/grouping loop building `byMinor`. -/
def addRelease (now : Int) (coerce : String → Option Semver)
    (m : List ((Nat × Nat) × VersionEntry)) (r : RawRelease) :
    List ((Nat × Nat) × VersionEntry) :=
  if r.draft then m
  else if r.prerelease then m
  else
    match r.publishedAt with
    | none => m
    | some publishedAt =>
      if publishedAt > now - 3600000 then m
      else
        let candidate := releaseCandidate r
        match coerce candidate with
        | none => m
        | some parsed =>
          match mapGetMinor m (parsed.major, parsed.minor) with
          | none => mapSetMinor m (parsed.major, parsed.minor) ⟨parsed, candidate⟩
          | some existing =>
            if semverLt existing.sem parsed then
              mapSetMinor m (parsed.major, parsed.minor) ⟨parsed, candidate⟩
            else m

/-- Insertion step of the version-descending sort. -/
def insertDescEntry (e : VersionEntry) : List VersionEntry → List VersionEntry
  | [] => [e]
  | b :: rest =>
    if semverLe b.sem e.sem then e :: b :: rest else b :: insertDescEntry e rest

/-- `Array.sort((a, b) => semver.compare(b.sem, a.sem))`: highest first.  The
grouped entries have pairwise distinct `(major, minor)`, hence no ties. -/
def sortDescEntries : List VersionEntry → List VersionEntry
  | [] => []
  | e :: rest => insertDescEntry e (sortDescEntries rest)

/-- The usable `(major, minor)` groups of a registry response, sorted by
version descending. -/
def usableGroups (now : Int) (coerce : String → Option Semver)
    (releases : List RawRelease) : List VersionEntry :=
  sortDescEntries ((releases.foldl (addRelease now coerce) []).map Prod.snd)

inductive FetchError where
  /-- The explicit `throw new Error("No suitable stable releases found")`. -/
  | noReleases
  /-- The JS `TypeError` from reading `.sem` of `sorted[1] === undefined`. -/
  | oldStableUndefined
deriving DecidableEq, Repr

/-- `fetchReleases`: highest group is `currentStable`; `oldStable` is the
first later group with a different `(major, minor)`, else `sorted[1]`. -/
def fetchReleases (now : Int) (coerce : String → Option Semver)
    (releases : List RawRelease) : Except FetchError LatestReleases :=
  match usableGroups now coerce releases with
  | [] => .error .noReleases
  | current :: rest =>
    match rest.find? (fun e =>
        decide (e.sem.major ≠ current.sem.major ∨ e.sem.minor ≠ current.sem.minor)) with
    | some e => .ok ⟨current.sem, e.sem⟩
    | none =>
      match rest with
      | [] => .error .oldStableUndefined
      | e :: _ => .ok ⟨current.sem, e.sem⟩

/-! ## Order facts about versions and the release sort -/

theorem semverLe_trans {a b c : Semver} (h1 : semverLe a b) (h2 : semverLe b c) :
    semverLe a c := by
  cases a with
  | mk a1 a2 a3 =>
  cases b with
  | mk b1 b2 b3 =>
  cases c with
  | mk c1 c2 c3 =>
  simp only [semverLe, semverLt, Semver.mk.injEq] at h1 h2 ⊢
  omega

theorem semverLe_of_not_le {a b : Semver} (h : ¬ semverLe a b) : semverLe b a := by
  cases a with
  | mk a1 a2 a3 =>
  cases b with
  | mk b1 b2 b3 =>
  simp only [semverLe, semverLt, Semver.mk.injEq] at h ⊢
  omega

theorem insertDescEntry_perm (e : VersionEntry) (l : List VersionEntry) :
    (insertDescEntry e l).Perm (e :: l) := by
  induction l with
  | nil => exact List.Perm.refl _
  | cons b rest ih =>
    rw [insertDescEntry]
    by_cases h : semverLe b.sem e.sem
    · rw [if_pos h]
    · rw [if_neg h]
      exact (List.Perm.cons b ih).trans (List.Perm.swap e b rest)

theorem sortDescEntries_perm (l : List VersionEntry) :
    (sortDescEntries l).Perm l := by
  induction l with
  | nil => exact List.Perm.refl _
  | cons e rest ih =>
    exact (insertDescEntry_perm e (sortDescEntries rest)).trans (List.Perm.cons e ih)

theorem insertDescEntry_pairwise (e : VersionEntry) (l : List VersionEntry)
    (h : l.Pairwise (fun a b => semverLe b.sem a.sem)) :
    (insertDescEntry e l).Pairwise (fun a b => semverLe b.sem a.sem) := by
  induction l with
  | nil => simp [insertDescEntry]
  | cons b rest ih =>
    rw [List.pairwise_cons] at h
    rw [insertDescEntry]
    by_cases hc : semverLe b.sem e.sem
    · rw [if_pos hc]
      rw [List.pairwise_cons]
      refine ⟨?_, List.pairwise_cons.mpr h⟩
      intro y hy
      rcases List.mem_cons.mp hy with hy | hy
      · exact hy ▸ hc
      · exact semverLe_trans (h.1 y hy) hc
    · rw [if_neg hc]
      rw [List.pairwise_cons]
      refine ⟨?_, ih h.2⟩
      intro y hy
      rcases List.mem_cons.mp ((insertDescEntry_perm e rest).mem_iff.mp hy) with hy2 | hy2
      · exact hy2 ▸ semverLe_of_not_le hc
      · exact h.1 y hy2

theorem sortDescEntries_pairwise (l : List VersionEntry) :
    (sortDescEntries l).Pairwise (fun a b => semverLe b.sem a.sem) := by
  induction l with
  | nil => exact List.Pairwise.nil
  | cons e rest ih => exact insertDescEntry_pairwise e _ ih

/-- The `(major, minor)` group key of an entry. -/
def minorKeyOf (e : VersionEntry) : Nat × Nat :=
  (e.sem.major, e.sem.minor)

/-- The invariant of the `byMinor` map: every entry is stored under its own
`(major, minor)` key, and keys are unique. -/
def GoodMinorMap (m : List ((Nat × Nat) × VersionEntry)) : Prop :=
  (∀ p ∈ m, p.1 = minorKeyOf p.2) ∧ (m.map Prod.fst).Nodup

theorem mapSetMinor_keys_sub (m : List ((Nat × Nat) × VersionEntry)) (k : Nat × Nat)
    (e : VersionEntry) :
    ∀ x ∈ (mapSetMinor m k e).map Prod.fst, x ∈ m.map Prod.fst ∨ x = k := by
  induction m with
  | nil =>
    intro x hx
    simp [mapSetMinor] at hx
    exact Or.inr hx
  | cons p rest ih =>
    obtain ⟨k2, e2⟩ := p
    intro x hx
    rw [mapSetMinor] at hx
    by_cases h : k2 = k
    · rw [if_pos h] at hx
      simp only [List.map_cons, List.mem_cons] at hx ⊢
      exact Or.inl hx
    · rw [if_neg h] at hx
      simp only [List.map_cons, List.mem_cons] at hx ⊢
      rcases hx with hx | hx
      · exact Or.inl (Or.inl hx)
      · rcases ih x hx with h2 | h2
        · exact Or.inl (Or.inr h2)
        · exact Or.inr h2

theorem mapSetMinor_good (m : List ((Nat × Nat) × VersionEntry)) (e : VersionEntry)
    (hm : GoodMinorMap m) :
    GoodMinorMap (mapSetMinor m (minorKeyOf e) e) := by
  obtain ⟨hkeys, hnd⟩ := hm
  constructor
  · induction m with
    | nil =>
      intro p hp
      simp [mapSetMinor] at hp
      rw [hp]
    | cons q rest ih =>
      obtain ⟨k2, e2⟩ := q
      intro p hp
      rw [mapSetMinor] at hp
      by_cases h : k2 = minorKeyOf e
      · rw [if_pos h] at hp
        rcases List.mem_cons.mp hp with hp | hp
        · rw [hp, h]
        · exact hkeys p (List.mem_cons_of_mem _ hp)
      · rw [if_neg h] at hp
        rcases List.mem_cons.mp hp with hp | hp
        · exact hp ▸ hkeys (k2, e2) (List.mem_cons_self _ _)
        · exact ih (fun q hq => hkeys q (List.mem_cons_of_mem _ hq))
            (List.Nodup.of_cons hnd) p hp
  · clear hkeys
    induction m with
    | nil => simp [mapSetMinor]
    | cons q rest ih =>
      obtain ⟨k2, e2⟩ := q
      rw [mapSetMinor]
      by_cases h : k2 = minorKeyOf e
      · rw [if_pos h]
        simpa using hnd
      · rw [if_neg h]
        simp only [List.map_cons, List.nodup_cons] at hnd ⊢
        refine ⟨?_, ih hnd.2⟩
        intro hc
        rcases mapSetMinor_keys_sub rest (minorKeyOf e) e k2 hc with h2 | h2
        · exact hnd.1 h2
        · exact h h2

theorem mapSetMinor_good_key (m : List ((Nat × Nat) × VersionEntry)) (k : Nat × Nat)
    (e : VersionEntry) (hk : k = minorKeyOf e) (hm : GoodMinorMap m) :
    GoodMinorMap (mapSetMinor m k e) :=
  hk ▸ mapSetMinor_good m e hm

theorem addRelease_good (now : Int) (coerce : String → Option Semver)
    (m : List ((Nat × Nat) × VersionEntry)) (r : RawRelease) (hm : GoodMinorMap m) :
    GoodMinorMap (addRelease now coerce m r) := by
  simp only [addRelease]
  repeat' split
  all_goals
    first
      | exact hm
      | exact mapSetMinor_good_key m _ _ rfl hm

theorem byMinor_good (now : Int) (coerce : String → Option Semver)
    (releases : List RawRelease) :
    GoodMinorMap (releases.foldl (addRelease now coerce) []) := by
  have h : ∀ m, GoodMinorMap m → GoodMinorMap (releases.foldl (addRelease now coerce) m) := by
    induction releases with
    | nil => exact fun m hm => hm
    | cons r rest ih =>
      intro m hm
      rw [List.foldl_cons]
      exact ih _ (addRelease_good now coerce m r hm)
  exact h [] ⟨fun p hp => absurd hp (List.not_mem_nil p), List.nodup_nil⟩

theorem good_values_distinct (m : List ((Nat × Nat) × VersionEntry)) (hm : GoodMinorMap m) :
    (m.map Prod.snd).Pairwise (fun a b => minorKeyOf a ≠ minorKeyOf b) := by
  obtain ⟨hkeys, hnd⟩ := hm
  induction m with
  | nil => exact List.Pairwise.nil
  | cons p rest ih =>
    simp only [List.map_cons, List.nodup_cons] at hnd
    rw [List.map_cons, List.pairwise_cons]
    constructor
    · intro b hb hcontra
      obtain ⟨q, hq, hqb⟩ := List.mem_map.mp hb
      have hp1 : p.1 = minorKeyOf p.2 := hkeys p (List.mem_cons_self _ _)
      have hq1 : q.1 = minorKeyOf q.2 := hkeys q (List.mem_cons_of_mem _ hq)
      apply hnd.1
      have : p.1 = q.1 := by rw [hp1, hq1, hqb, hcontra]
      exact this ▸ List.mem_map.mpr ⟨q, hq, rfl⟩
    · exact ih (fun q hq => hkeys q (List.mem_cons_of_mem _ hq)) hnd.2

theorem usableGroups_distinct (now : Int) (coerce : String → Option Semver)
    (releases : List RawRelease) :
    (usableGroups now coerce releases).Pairwise (fun a b => minorKeyOf a ≠ minorKeyOf b) := by
  unfold usableGroups
  have hperm := sortDescEntries_perm
    ((releases.foldl (addRelease now coerce) []).map Prod.snd)
  exact (hperm.pairwise_iff (fun h => Ne.symm h)).mpr
    (good_values_distinct _ (byMinor_good now coerce releases))

theorem usableGroups_sorted (now : Int) (coerce : String → Option Semver)
    (releases : List RawRelease) :
    (usableGroups now coerce releases).Pairwise (fun a b => semverLe b.sem a.sem) :=
  sortDescEntries_pairwise _

/-- C7: the claim's error condition is wrong on the code.  Amended: the
refresh errors out iff there are fewer than two usable `(major, minor)`
groups (zero groups hit the explicit throw; exactly one crashes reading
`sorted[1].sem` of `undefined`); with at least two groups it returns
currentStable = the highest group's version — an upper bound of every usable
group — and oldStable = the very next group, whose `(major, minor)` always
differs from currentStable's, so it is the first subsequent differing group
and the regardless-of-minor fallback can never fire. -/
theorem fetchReleases_characterization (now : Int) (coerce : String → Option Semver)
    (releases : List RawRelease) :
    ((∃ e, fetchReleases now coerce releases = Except.error e)
        ↔ (usableGroups now coerce releases).length < 2)
    ∧ (∀ g0 g1 rest, usableGroups now coerce releases = g0 :: g1 :: rest →
        fetchReleases now coerce releases = Except.ok ⟨g0.sem, g1.sem⟩
        ∧ (∀ g ∈ usableGroups now coerce releases, semverLe g.sem g0.sem)
        ∧ (g1.sem.major ≠ g0.sem.major ∨ g1.sem.minor ≠ g0.sem.minor)) := by
  have hmain : ∀ g0 g1 rest, usableGroups now coerce releases = g0 :: g1 :: rest →
      fetchReleases now coerce releases = Except.ok ⟨g0.sem, g1.sem⟩
      ∧ (∀ g ∈ usableGroups now coerce releases, semverLe g.sem g0.sem)
      ∧ (g1.sem.major ≠ g0.sem.major ∨ g1.sem.minor ≠ g0.sem.minor) := by
    intro g0 g1 rest hgs
    have hdist := usableGroups_distinct now coerce releases
    rw [hgs, List.pairwise_cons] at hdist
    have hne : minorKeyOf g1 ≠ minorKeyOf g0 :=
      fun h => hdist.1 g1 (List.mem_cons_self _ _) h.symm
    have hcomp : g1.sem.major ≠ g0.sem.major ∨ g1.sem.minor ≠ g0.sem.minor := by
      by_cases h1 : g1.sem.major = g0.sem.major
      · refine Or.inr ?_
        intro h2
        exact hne (Prod.ext h1 h2)
      · exact Or.inl h1
    refine ⟨?_, ?_, hcomp⟩
    · have hfind : List.find?
          (fun e => decide (e.sem.major ≠ g0.sem.major ∨ e.sem.minor ≠ g0.sem.minor))
          (g1 :: rest) = some g1 :=
        List.find?_cons_of_pos _ (by simp only [decide_eq_true_eq]; exact hcomp)
      unfold fetchReleases
      rw [hgs]
      show (match List.find?
          (fun e => decide (e.sem.major ≠ g0.sem.major ∨ e.sem.minor ≠ g0.sem.minor))
          (g1 :: rest) with
        | some e => Except.ok (⟨g0.sem, e.sem⟩ : LatestReleases)
        | none =>
          match g1 :: rest with
          | [] => Except.error FetchError.oldStableUndefined
          | e :: _ => Except.ok (⟨g0.sem, e.sem⟩ : LatestReleases))
        = Except.ok (⟨g0.sem, g1.sem⟩ : LatestReleases)
      rw [hfind]
    · have hsorted := usableGroups_sorted now coerce releases
      rw [hgs, List.pairwise_cons] at hsorted
      intro g hg
      rw [hgs] at hg
      rcases List.mem_cons.mp hg with hg | hg
      · exact hg ▸ Or.inr rfl
      · exact hsorted.1 g hg
  constructor
  · constructor
    · rintro ⟨e, he⟩
      by_contra hlen
      rcases hgs : usableGroups now coerce releases with _ | ⟨g0, _ | ⟨g1, rest⟩⟩
      · rw [hgs] at hlen
        exact hlen (by simp)
      · rw [hgs] at hlen
        exact hlen (by simp)
      · rw [(hmain g0 g1 rest hgs).1] at he
        cases he
    · intro hlen
      rcases hgs : usableGroups now coerce releases with _ | ⟨g0, _ | ⟨g1, rest⟩⟩
      · refine ⟨FetchError.noReleases, ?_⟩
        unfold fetchReleases
        rw [hgs]
      · refine ⟨FetchError.oldStableUndefined, ?_⟩
        unfold fetchReleases
        rw [hgs]
        rfl
      · rw [hgs] at hlen
        simp only [List.length_cons] at hlen
        omega
  · exact hmain

/-- A concrete stand-in for node-semver `coerce` on the release tags used by
the C7 witness and counterexample. -/
def c7coerce : String → Option Semver := fun s =>
  if s = "3.3.1" then some ⟨3, 3, 1⟩
  else if s = "3.2.9" then some ⟨3, 2, 9⟩
  else none

/-- C7 counterexample: with exactly one usable release (a non-draft
non-prerelease `v3.3.1` published outside the one-hour window) the refresh
raises an error even though the set of usable releases is non-empty,
refuting "raises a recoverable error if and only if zero usable releases". -/
theorem fetchReleases_single_group_errors :
    fetchReleases 7200000 c7coerce [⟨false, false, some 0, "v3.3.1", ""⟩]
        = Except.error FetchError.oldStableUndefined
    ∧ usableGroups 7200000 c7coerce [⟨false, false, some 0, "v3.3.1", ""⟩] ≠ [] := by
  exact ⟨rfl, by decide⟩

/-- C7 witness: two usable releases `v3.3.1` and `v3.2.9` yield the snapshot
`currentStable = 3.3.1`, `oldStable = 3.2.9`, with 3.3.1 an upper bound of
both groups and the branches distinct. -/
theorem fetchReleases_characterization_witness :
    fetchReleases 7200000 c7coerce
        [⟨false, false, some 0, "v3.3.1", ""⟩, ⟨false, false, some 0, "v3.2.9", ""⟩]
      = Except.ok ⟨⟨3, 3, 1⟩, ⟨3, 2, 9⟩⟩
    ∧ (∀ g ∈ usableGroups 7200000 c7coerce
        [⟨false, false, some 0, "v3.3.1", ""⟩, ⟨false, false, some 0, "v3.2.9", ""⟩],
        semverLe g.sem ⟨3, 3, 1⟩) := by
  have h := (fetchReleases_characterization 7200000 c7coerce
    [⟨false, false, some 0, "v3.3.1", ""⟩, ⟨false, false, some 0, "v3.2.9", ""⟩]).2
    ⟨⟨3, 3, 1⟩, "3.3.1"⟩ ⟨⟨3, 2, 9⟩, "3.2.9"⟩ [] (by decide)
  exact ⟨h.1, h.2.1⟩

/-! ## Usage data model (`detailed-usage.ts`) -/

structure Surface where
  moduleId : String
  id : String
  description : String
deriving DecidableEq, Repr

structure Connection where
  moduleId : String
  counts : List (String × Int)
deriving DecidableEq, Repr

/-- A `surfaceUserLastSeen` row (the fields the writer sets). -/
structure SurfaceLastSeenRow where
  surface_description : String
  last_seen : Int
deriving DecidableEq, Repr

/-- A `moduleUserLastSeen` row (the fields the writer sets). -/
structure ModuleLastSeenRow where
  max_count : Int
  last_seen : Int
deriving DecidableEq, Repr

/-- The persistent store, one field per table touched by the usage writers.
`knownModules` assigns row ids by position: row `i` is `(module_name,
module_version)`, with `""` for a null version (`module_version || ""`). -/
structure UsageState where
  surfaceDailyUsage : Table (Nat × String × String) Int
  surfaceUserLastSeen : Table (String × String × String) SurfaceLastSeenRow
  knownModules : List (String × String)
  moduleDailyUsage : Table (Nat × String × Nat) Int
  moduleUserLastSeen : Table (String × Nat) ModuleLastSeenRow

/-! ## `writeSurfacesDailyUsage` (`write-surfaces-usage.ts`) -/

/-- JS `Map.set(k, get(k) ?? 0 + 1)` over an insertion-ordered map: an update
keeps the key's position, a new key is appended. -/
def mapIncr : List (String × Int) → String → List (String × Int)
  | [], k => [(k, 1)]
  | (k2, c) :: rest, k =>
    if k2 = k then (k2, c + 1) :: rest else (k2, c) :: mapIncr rest k

/-- The per-module surface counts of one submission, in JS `Map` iteration
(insertion) order. -/
def buildModuleCounts (surfaces : List Surface) : List (String × Int) :=
  surfaces.foldl (fun m s => mapIncr m s.moduleId) []

/-- `writeSurfacesDailyUsage`: snapshots the existing `(date, user)` rows,
then upserts `max(existing, count)` per module.  Note the source looks the
existing count up under the raw module name but writes under the name
truncated to 128 characters. -/
def writeSurfacesDailyUsage (machineId : String) (day : Nat) (surfaces : List Surface)
    (db : Table (Nat × String × String) Int) : Table (Nat × String × String) Int :=
  (buildModuleCounts surfaces).foldl
    (fun d mc =>
      mapWrite d (day, machineId, strTake mc.1 128)
        (max ((db (day, machineId, mc.1)).getD 0) mc.2))
    db

/-! ## `writeSurfacesLastSeen` and the legacy-identity pruning -/

def listHasPre : List Char → List Char → Bool
  | [], _ => true
  | _ :: _, [] => false
  | p :: ps, c :: cs => decide (p = c) && listHasPre ps cs

def listHasSub : List Char → List Char → Bool
  | pat, [] => listHasPre pat []
  | pat, c :: cs => listHasPre pat (c :: cs) || listHasSub pat cs

/-- JS `s.includes(pat)`. -/
def strHasSub (s pat : String) : Bool :=
  listHasSub pat.data s.data

/-- The description canonicalization table of `write-surfaces-usage.ts`. -/
def translateDescription (description : String) : String :=
  match description with
  | "Stream Deck" | "Satellite StreamDeck: original" | "Satellite StreamDeck: originalv2" =>
    "Elgato Stream Deck"
  | "Stream Deck XL" | "Satellite StreamDeck: xl" | "Satellite StreamDeck: xlv2" =>
    "Elgato Stream Deck XL"
  | "Stream Deck Mini" | "Satellite StreamDeck: mini" | "Satellite StreamDeck: miniv2" =>
    "Elgato Stream Deck Mini"
  | "Stream Deck MK.2" | "Satellite StreamDeck: original-mk2" =>
    "Elgato Stream Deck MK.2"
  | "Stream Deck +" | "Satellite StreamDeck: plus" | "Elgato Stream Deck Plus" =>
    "Elgato Stream Deck +"
  | "Stream Deck Pedal" | "Satellite StreamDeck: pedal" =>
    "Elgato Stream Deck Pedal"
  | "Stream Deck Neo" | "Satellite StreamDeck: neo" =>
    "Elgato Stream Deck Neo"
  | "Stream Deck 15 Module" => "Elgato Stream Deck 15 Module"
  | "Stream Deck 32 Module" => "Elgato Stream Deck 32 Module"
  | "Stream Deck 6 Module" => "Elgato Stream Deck 6 Module"
  | "Stream Deck MK.2 (Scissor)" => "Elgato Stream Deck MK.2 (Scissor)"
  | "Stream Deck Studio" => "Elgato Stream Deck Studio"
  | _ =>
    if strHasSub description "MakePro X Glue" then "MakePro X Glue"
    else description

/-- The characters after the first `:`, if any. -/
def afterFirstColon : List Char → Option (List Char)
  | [] => none
  | c :: cs => if c = ':' then some cs else afterFirstColon cs

/-- The substring after the first `:` of `s`, when `s` contains one:
`indexOf(":")` / `slice(colonIndex + 1)`. -/
def colonSuffix (s : String) : Option String :=
  (afterFirstColon s.data).map (fun cs => ⟨cs⟩)

/-- The candidate legacy hashes added to `oldSerialsToPrune` for one raw
serial: the hash of the full id, and when the id contains a `:`, the hash of
the part after it, plain and with the `satellite-` prefix. -/
def pruneHashes (md5 : String → String) (id : String) : List String :=
  md5 id ::
    (match colonSuffix id with
      | some suffix => [md5 suffix, md5 ("satellite-" ++ suffix)]
      | none => [])

def listContains (l : List String) (x : String) : Bool :=
  match l with
  | [] => false
  | y :: rest => decide (y = x) || listContains rest x

/-- One iteration of the `writeSurfacesLastSeen` loop: record the legacy
hashes of the raw serial, then upsert the plain-identity row (the JS `Set`
of hashes is modelled as a list; only membership is consumed). -/
def lastSeenStep (md5 : String → String) (machineId : String) (now : Int)
    (acc : Table (String × String × String) SurfaceLastSeenRow × List String)
    (surface : Surface) :
    Table (String × String × String) SurfaceLastSeenRow × List String :=
  (mapWrite acc.1
      (machineId, strTake surface.moduleId 128, strTake surface.id 64)
      ⟨strTake (translateDescription surface.description) 128, now⟩,
    acc.2 ++ pruneHashes md5 surface.id)

/-- `writeSurfacesLastSeen`: all upserts first, then one `deleteMany` of this
subject's rows whose serial is any collected legacy hash. -/
def writeSurfacesLastSeen (md5 : String → String) (machineId : String) (now : Int)
    (surfaces : List Surface) (db : Table (String × String × String) SurfaceLastSeenRow) :
    Table (String × String × String) SurfaceLastSeenRow :=
  let acc := surfaces.foldl (lastSeenStep md5 machineId now) (db, [])
  if acc.2.isEmpty then acc.1
  else fun k => if k.1 = machineId ∧ listContains acc.2 k.2.2 then none else acc.1 k

/-- `writeSurfacesUsage`: no-op on an empty surface list, otherwise the daily
and last-seen writers (which run under `Promise.all` but touch disjoint
tables, so their composition is exact). -/
def writeSurfacesUsage (md5 : String → String) (machineId : String) (day : Nat) (now : Int)
    (surfaces : List Surface) (st : UsageState) : UsageState :=
  if surfaces.isEmpty then st
  else
    { st with
      surfaceDailyUsage := writeSurfacesDailyUsage machineId day surfaces st.surfaceDailyUsage
      surfaceUserLastSeen := writeSurfacesLastSeen md5 machineId now surfaces st.surfaceUserLastSeen }

/-! ## `writeConnectionsUsage` (`write-connections-usage.ts`) -/

/-- `if (cnt) totalInstances += cnt`: zero (and NaN) are falsy. -/
def totalInstances (counts : List (String × Int)) : Int :=
  counts.foldl (fun t vc => if vc.2 ≠ 0 then t + vc.2 else t) 0

/-- The stored `module_version` column value for a requested version:
`version0 ? version0.slice(0, 32) : null` followed by `moduleVersion || ""`. -/
def storedVersion : Option String → String
  | none => ""
  | some v => if v = "" then "" else strTake v 32

/-- Position of the `knownModule` row for `(name, ver)`, if any. -/
def regFindIdx : List (String × String) → String → String → Option Nat
  | [], _, _ => none
  | (n, v) :: rest, name, ver =>
    if n = name ∧ v = ver then some 0
    else (regFindIdx rest name ver).map (· + 1)

/-- `getOrCreateModuleRowId`: the in-memory row-id cache is observationally
the `knownModule` table restricted to this module name, and the
create-on-miss is the idempotent upsert of `createConnectionModule`. -/
def getOrCreateModuleRowId (reg : List (String × String)) (moduleName : String)
    (version0 : Option String) : List (String × String) × Nat :=
  let stored := storedVersion version0
  match regFindIdx reg moduleName stored with
  | some i => (reg, i)
  | none => (reg ++ [(moduleName, stored)], reg.length)

/-- `updateConnectionModuleCounts`: max-merge one identity's daily and
all-time counts against the snapshots fetched at the start of
`writeConnectionsUsage`. -/
def updateConnectionModuleCounts (snapDaily snapLastSeen : Nat → Option Int)
    (machineId : String) (day : Nat) (now : Int) (moduleRowId : Nat) (instanceCount : Int)
    (st : UsageState) : UsageState :=
  { st with
    moduleDailyUsage :=
      mapWrite st.moduleDailyUsage (day, machineId, moduleRowId)
        (max ((snapDaily moduleRowId).getD 0) instanceCount)
    moduleUserLastSeen :=
      mapWrite st.moduleUserLastSeen (machineId, moduleRowId)
        ⟨max ((snapLastSeen moduleRowId).getD 0) instanceCount, now⟩ }

/-- The body of the per-connection loop: ensure the null-version sum row,
merge the summed count into it, then merge each per-version count. -/
def processConnection (snapDaily snapLastSeen : Nat → Option Int) (machineId : String)
    (day : Nat) (now : Int) (st : UsageState) (conn : Connection) : UsageState :=
  let moduleName := strTake conn.moduleId 128
  let r := getOrCreateModuleRowId st.knownModules moduleName none
  let st1 :=
    updateConnectionModuleCounts snapDaily snapLastSeen machineId day now r.2
      (totalInstances conn.counts) { st with knownModules := r.1 }
  conn.counts.foldl
    (fun stA vc =>
      let r2 := getOrCreateModuleRowId stA.knownModules moduleName (some vc.1)
      updateConnectionModuleCounts snapDaily snapLastSeen machineId day now r2.2 vc.2
        { stA with knownModules := r2.1 })
    st1

/-- `writeConnectionsUsage`: no-op on empty input; otherwise snapshots this
subject's daily and last-seen rows once, then processes the connections
sequentially. -/
def writeConnectionsUsage (machineId : String) (day : Nat) (now : Int)
    (connections : List Connection) (st : UsageState) : UsageState :=
  if connections.isEmpty then st
  else
    let snapDaily := fun rid => st.moduleDailyUsage (day, machineId, rid)
    let snapLastSeen :=
      fun rid => (st.moduleUserLastSeen (machineId, rid)).map ModuleLastSeenRow.max_count
    connections.foldl (processConnection snapDaily snapLastSeen machineId day now) st

/-- `writeUsageData`: the surfaces and connections branches run concurrently
under `Promise.all` but touch disjoint tables, so their sequential
composition is exact. -/
def writeUsageData (md5 : String → String) (machineId : String) (day : Nat) (now : Int)
    (surfaces : List Surface) (connections : List Connection) (st : UsageState) : UsageState :=
  writeConnectionsUsage machineId day now connections
    (writeSurfacesUsage md5 machineId day now surfaces st)

/-! ## The legacy old-metrics surface normalizer (`old-metrics.ts`) -/

/-- The JavaScript values relevant to the loosely-typed legacy payload. -/
inductive JsValue where
  | undef
  | nullv
  | str (s : String)
  | num (n : Int)
  | boolv (b : Bool)
  | obj
deriving DecidableEq, Repr

/-- JS `String(x)`. -/
def jsToString : JsValue → String
  | .undef => "undefined"
  | .nullv => "null"
  | .str s => s
  | .num n => toString n
  | .boolv true => "true"
  | .boolv false => "false"
  | .obj => "[object Object]"

/-- JS `s || fallback` on a string: the fallback is taken only for `""`. -/
def jsOrElse (s fallback : String) : String :=
  if s = "" then fallback else s

/-- One entry of the enumerated legacy surface map `s`. -/
structure OldSurfaceInfo where
  type : JsValue
  description : JsValue
deriving DecidableEq, Repr

/-- The surface record pushed for one `[serial, info]` entry of `s`:
`{ id: String(serial), moduleId: String(info.type) || "unknown",
description: String(info.description) || "Unknown" }`. -/
def normalizeOldSurfaceEntry (serial : String) (info : OldSurfaceInfo) : Surface :=
  { id := serial
    moduleId := jsOrElse (jsToString info.type) "unknown"
    description := jsOrElse (jsToString info.description) "Unknown" }

/-! ## Claims about the advisory state machine -/

/-- C6: every build identifier that parses with major version < 3 gets the
ancient-version message and its upgrade link, for every channel and every
release-registry state (including before any snapshot has been fetched), and
no further checks run. -/
theorem checkForUpdate_ancient (parse : String → Option Semver)
    (latest : Option LatestReleases) (appBuild : String) (p : Semver)
    (hp : parse appBuild = some p) (hmaj : p.major < 3) :
    prepareCompanionResponse parse latest appBuild = ancientResponse := by
  unfold prepareCompanionResponse
  rw [hp]
  simp [hmaj]

/-- C6 witness: the scenario build `2.4.0+500-stable-abc1234`, with an empty
release registry. -/
theorem checkForUpdate_ancient_witness :
    prepareCompanionResponse
        (fun s => if s = "2.4.0+500-stable-abc1234" then some ⟨2, 4, 0⟩ else none)
        none "2.4.0+500-stable-abc1234"
      = ancientResponse :=
  checkForUpdate_ancient _ none _ ⟨2, 4, 0⟩ (by decide) (by decide)

/-- C8: a build string that fails semver parsing entirely yields `ok = true`
(the client must not retry later) with the invalid-version-format message,
for every release-registry state — the snapshot is never consulted. -/
theorem checkForUpdate_parse_failure (parse : String → Option Semver)
    (latest : Option LatestReleases) (appBuild : String)
    (hp : parse appBuild = none) :
    prepareCompanionResponse parse latest appBuild = invalidVersionResponse := by
  unfold prepareCompanionResponse
  rw [hp]

/-- C8 witness: the scenario build `not-a-version`, against a populated
snapshot. -/
theorem checkForUpdate_parse_failure_witness :
    prepareCompanionResponse (fun _ => none) (some ⟨⟨3, 3, 1⟩, ⟨3, 2, 9⟩⟩) "not-a-version"
      = invalidVersionResponse :=
  checkForUpdate_parse_failure _ _ _ rfl

/-- C9: the `/updates` handler answers any application other than
`"companion"` with `ok = true` and an empty message, regardless of build and
registry state; the advisory state machine runs only for `"companion"`. -/
theorem updatesHandler_app_gate (parse : String → Option Semver)
    (latest : Option LatestReleases) (appName appBuild : String) :
    (appName ≠ "companion" → updatesHandler parse latest appName appBuild = ⟨true, "", none⟩)
    ∧ (appName = "companion" →
        updatesHandler parse latest appName appBuild
          = prepareCompanionResponse parse latest appBuild) := by
  constructor
  · intro h
    simp [updatesHandler, h]
  · intro h
    simp [updatesHandler, h]

/-- C9 witness: an `"admin"` report is answered with the empty-ok response,
and a `"companion"` report is routed into the advisory state machine. -/
theorem updatesHandler_app_gate_witness :
    updatesHandler (fun _ => none) none "admin" "3.3.1+7001-stable-ee7c3daa" = ⟨true, "", none⟩
    ∧ updatesHandler (fun _ => none) none "companion" "3.3.1+7001-stable-ee7c3daa"
        = prepareCompanionResponse (fun _ => none) none "3.3.1+7001-stable-ee7c3daa" :=
  ⟨(updatesHandler_app_gate _ _ _ _).1 (by decide), (updatesHandler_app_gate _ _ _ _).2 rfl⟩

/-- C5: for a stable-channel build in the documented format (so past the
parse, ancient and format gates, with `3 ≤ major`), with a snapshot whose two
branches are distinct and the build not below oldStable's minor-branch floor:
on oldStable's minor branch the response is the new-stable advisory pointing
at currentStable (for versions behind or equal to oldStable alike); on
currentStable's minor branch, exact equality yields the empty up-to-date
message while strictly behind yields the new-stable advisory. -/
theorem checkForUpdate_stable_branches
    (parse : String → Option Semver) (lr : LatestReleases) (appBuild : String) (p : Semver)
    (hp : parse appBuild = some p)
    (hkind : matchKnownBuild appBuild = some "stable")
    (hmaj : 3 ≤ p.major)
    (hfloor : ¬ semverLt p ⟨lr.oldStable.major, lr.oldStable.minor, 0⟩)
    (hdistinct : ¬ (lr.oldStable.major = lr.currentStable.major
        ∧ lr.oldStable.minor = lr.currentStable.minor)) :
    ((p.major = lr.oldStable.major ∧ p.minor = lr.oldStable.minor) →
        prepareCompanionResponse parse (some lr) appBuild = newStableResponse lr.currentStable)
    ∧ ((p.major = lr.currentStable.major ∧ p.minor = lr.currentStable.minor) →
        (p = lr.currentStable →
            prepareCompanionResponse parse (some lr) appBuild = upToDateResponse)
        ∧ (semverLt p lr.currentStable →
            prepareCompanionResponse parse (some lr) appBuild
              = newStableResponse lr.currentStable)) := by
  have hm3 : ¬ p.major < 3 := by omega
  constructor
  · intro hold
    unfold prepareCompanionResponse
    rw [hp]
    simp only [hkind, eq_false hm3, eq_false hfloor, eq_true hold, eq_self_iff_true,
      if_true, if_false, ite_self]
  · intro hcur
    have hnotold : ¬ (p.major = lr.oldStable.major ∧ p.minor = lr.oldStable.minor) :=
      fun hold => hdistinct ⟨hold.1.symm.trans hcur.1, hold.2.symm.trans hcur.2⟩
    constructor
    · intro heq
      unfold prepareCompanionResponse
      rw [hp]
      simp only [hkind, eq_false hm3, eq_false hfloor, eq_false hnotold, eq_true hcur,
        eq_true heq, eq_self_iff_true, if_true, if_false]
    · intro hlt
      have hne : ¬ p = lr.currentStable := by
        intro heq
        rw [heq] at hlt
        simp [semverLt] at hlt
      unfold prepareCompanionResponse
      rw [hp]
      simp only [hkind, eq_false hm3, eq_false hfloor, eq_false hnotold, eq_true hcur,
        eq_false hne, eq_true hlt, eq_self_iff_true, if_true, if_false]

/-- A concrete stand-in for node-semver loose parsing on the two witness
build strings. -/
def c5parse : String → Option Semver := fun s =>
  if s = "3.3.1+7001-stable-ee7c3daa" then some ⟨3, 3, 1⟩
  else if s = "3.2.9+6100-stable-abcdef1" then some ⟨3, 2, 9⟩
  else none

/-- C5 witness: with oldStable = 3.2.9 and currentStable = 3.3.1, the
scenario build `3.3.1+7001-stable-ee7c3daa` is answered with the empty
up-to-date message, and a build `3.2.9+6100-stable-abcdef1` on the old-stable
branch (equal to oldStable) gets the new-stable advisory. -/
theorem checkForUpdate_stable_branches_witness :
    prepareCompanionResponse c5parse (some ⟨⟨3, 3, 1⟩, ⟨3, 2, 9⟩⟩)
        "3.3.1+7001-stable-ee7c3daa" = upToDateResponse
    ∧ prepareCompanionResponse c5parse (some ⟨⟨3, 3, 1⟩, ⟨3, 2, 9⟩⟩)
        "3.2.9+6100-stable-abcdef1" = newStableResponse ⟨3, 3, 1⟩ :=
  ⟨((checkForUpdate_stable_branches c5parse ⟨⟨3, 3, 1⟩, ⟨3, 2, 9⟩⟩ _ ⟨3, 3, 1⟩
      (by decide) (by decide) (by decide) (by decide) (by decide)).2
      (by decide)).1 (by decide),
    (checkForUpdate_stable_branches c5parse ⟨⟨3, 3, 1⟩, ⟨3, 2, 9⟩⟩ _ ⟨3, 2, 9⟩
      (by decide) (by decide) (by decide) (by decide) (by decide)).1 (by decide)⟩

/-! ## Claim about the old-metrics surface normalizer -/

/-- C10: in the enumerated legacy surface shape, an absent (`undefined`)
`type` field coerces to the literal string `"undefined"`, so the normalized
`moduleId` is `"undefined"`, not the `"unknown"` fallback; the fallback is
taken exactly when the string coercion of `type` is empty. -/
theorem oldMetrics_type_coercion (serial : String) (info : OldSurfaceInfo) :
    (info.type = JsValue.undef →
        (normalizeOldSurfaceEntry serial info).moduleId = "undefined")
    ∧ (jsToString info.type ≠ "" →
        (normalizeOldSurfaceEntry serial info).moduleId = jsToString info.type)
    ∧ (jsToString info.type = "" →
        (normalizeOldSurfaceEntry serial info).moduleId = "unknown") := by
  refine ⟨?_, ?_, ?_⟩ <;> intro h
  · simp [normalizeOldSurfaceEntry, jsOrElse, jsToString, h]
  · simp [normalizeOldSurfaceEntry, jsOrElse, h]
  · simp [normalizeOldSurfaceEntry, jsOrElse, h]

/-- C10 witness: an entry with both fields absent normalizes to moduleId
`"undefined"`, and an entry whose `type` coerces to `""` falls back to
`"unknown"`. -/
theorem oldMetrics_type_coercion_witness :
    (normalizeOldSurfaceEntry "serial1" ⟨JsValue.undef, JsValue.undef⟩).moduleId = "undefined"
    ∧ (normalizeOldSurfaceEntry "serial1" ⟨JsValue.str "", JsValue.undef⟩).moduleId = "unknown" :=
  ⟨(oldMetrics_type_coercion "serial1" ⟨JsValue.undef, JsValue.undef⟩).1 rfl,
    (oldMetrics_type_coercion "serial1" ⟨JsValue.str "", JsValue.undef⟩).2.2 rfl⟩

/-! ## Facts about the last-seen writer -/

theorem listContains_iff (l : List String) (x : String) :
    listContains l x = true ↔ x ∈ l := by
  induction l with
  | nil => simp [listContains]
  | cons y rest ih =>
    rw [listContains, Bool.or_eq_true, decide_eq_true_eq, ih, List.mem_cons]
    constructor
    · rintro (h | h)
      · exact Or.inl h.symm
      · exact Or.inr h
    · rintro (h | h)
      · exact Or.inl h.symm
      · exact Or.inr h

/-- The legacy hashes collected by one submission, in loop order. -/
def pruneList (md5 : String → String) (surfaces : List Surface) : List String :=
  surfaces.foldl (fun l t => l ++ pruneHashes md5 t.id) []

theorem foldl_append_shift {α : Type} (f : α → List String) (l : List α)
    (p0 p1 : List String) :
    l.foldl (fun acc a => acc ++ f a) (p0 ++ p1)
      = p0 ++ l.foldl (fun acc a => acc ++ f a) p1 := by
  induction l generalizing p1 with
  | nil => rfl
  | cons a l ih =>
    rw [List.foldl_cons, List.foldl_cons, List.append_assoc, ih]

theorem pruneList_cons (md5 : String → String) (t : Surface) (rest : List Surface) :
    pruneList md5 (t :: rest) = pruneHashes md5 t.id ++ pruneList md5 rest := by
  unfold pruneList
  rw [List.foldl_cons, List.nil_append]
  have h := foldl_append_shift (fun a : Surface => pruneHashes md5 a.id) rest
    (pruneHashes md5 t.id) []
  rw [List.append_nil] at h
  exact h

theorem lastSeen_fold_prune (md5 : String → String) (machineId : String) (now : Int)
    (surfaces : List Surface) (db : Table (String × String × String) SurfaceLastSeenRow)
    (p0 : List String) :
    (surfaces.foldl (lastSeenStep md5 machineId now) (db, p0)).2
      = p0 ++ pruneList md5 surfaces := by
  induction surfaces generalizing db p0 with
  | nil =>
    rw [List.foldl_nil]
    show p0 = p0 ++ pruneList md5 []
    rw [show pruneList md5 [] = [] from rfl, List.append_nil]
  | cons t rest ih =>
    rw [List.foldl_cons, pruneList_cons]
    show (rest.foldl (lastSeenStep md5 machineId now)
        (mapWrite db (machineId, strTake t.moduleId 128, strTake t.id 64)
          ⟨strTake (translateDescription t.description) 128, now⟩,
          p0 ++ pruneHashes md5 t.id)).2
      = p0 ++ (pruneHashes md5 t.id ++ pruneList md5 rest)
    rw [ih, List.append_assoc]

theorem lastSeen_fold_db (md5 : String → String) (machineId : String) (now : Int)
    (surfaces : List Surface) (db : Table (String × String × String) SurfaceLastSeenRow)
    (p0 : List String) :
    (surfaces.foldl (lastSeenStep md5 machineId now) (db, p0)).1
      = surfaces.foldl
          (fun d t =>
            mapWrite d (machineId, strTake t.moduleId 128, strTake t.id 64)
              ⟨strTake (translateDescription t.description) 128, now⟩)
          db := by
  induction surfaces generalizing db p0 with
  | nil => rfl
  | cons t rest ih =>
    rw [List.foldl_cons, List.foldl_cons, lastSeenStep]
    exact ih _ _

theorem mem_pruneList (md5 : String → String) {surfaces : List Surface} {s : Surface}
    (hs : s ∈ surfaces) {x : String} (hx : x ∈ pruneHashes md5 s.id) :
    x ∈ pruneList md5 surfaces := by
  induction surfaces with
  | nil => cases hs
  | cons t rest ih =>
    rw [pruneList_cons]
    rcases List.mem_cons.mp hs with h | h
    · exact List.mem_append_left _ (h ▸ hx)
    · exact List.mem_append_right _ (ih h)

theorem writeSurfacesLastSeen_prune_none (md5 : String → String) (machineId : String)
    (now : Int) (surfaces : List Surface)
    (db : Table (String × String × String) SurfaceLastSeenRow) (moduleName x : String)
    (hx : x ∈ pruneList md5 surfaces) :
    writeSurfacesLastSeen md5 machineId now surfaces db (machineId, moduleName, x) = none := by
  unfold writeSurfacesLastSeen
  rw [lastSeen_fold_prune md5 machineId now surfaces db []]
  rw [List.nil_append]
  have hne : ¬ (pruneList md5 surfaces).isEmpty = true := by
    cases h : pruneList md5 surfaces with
    | nil => rw [h] at hx; cases hx
    | cons a l => simp
  rw [if_neg hne]
  exact if_pos ⟨rfl, (listContains_iff _ _).mpr hx⟩

/-- C4: after a successful surfaces submission, the final `deleteMany` has
removed every last-seen row of this subject keyed by a legacy-hashed form of
any submitted raw serial: the hash of the full id, and — when the id has a
`:` separator — the hash of the part after it, plain or with the fixed
`satellite-` legacy tag; this holds at every module name. -/
theorem surfaces_prune_legacy_rows (md5 : String → String) (machineId : String) (now : Int)
    (surfaces : List Surface) (db : Table (String × String × String) SurfaceLastSeenRow)
    (s : Surface) (hs : s ∈ surfaces) (moduleName : String) :
    writeSurfacesLastSeen md5 machineId now surfaces db (machineId, moduleName, md5 s.id) = none
    ∧ (∀ suffix, colonSuffix s.id = some suffix →
        writeSurfacesLastSeen md5 machineId now surfaces db
            (machineId, moduleName, md5 suffix) = none
        ∧ writeSurfacesLastSeen md5 machineId now surfaces db
            (machineId, moduleName, md5 ("satellite-" ++ suffix)) = none) := by
  refine ⟨?_, fun suffix hsuf => ⟨?_, ?_⟩⟩
  · exact writeSurfacesLastSeen_prune_none md5 machineId now surfaces db moduleName _
      (mem_pruneList md5 hs (by simp [pruneHashes]))
  · exact writeSurfacesLastSeen_prune_none md5 machineId now surfaces db moduleName _
      (mem_pruneList md5 hs (by simp [pruneHashes, hsuf]))
  · exact writeSurfacesLastSeen_prune_none md5 machineId now surfaces db moduleName _
      (mem_pruneList md5 hs (by simp [pruneHashes, hsuf]))

/-- A concrete stand-in for the md5 hex digest in witnesses. -/
def md5demo (s : String) : String := "#" ++ s

/-- C4 witness: a surface with raw serial `ab:cd` (so all three legacy forms
exist) in a store where every key initially has a row. -/
theorem surfaces_prune_legacy_rows_witness :
    (⟨"mod", "ab:cd", "desc"⟩ : Surface) ∈ [(⟨"mod", "ab:cd", "desc"⟩ : Surface)]
    ∧ writeSurfacesLastSeen md5demo "u" 7 [⟨"mod", "ab:cd", "desc"⟩]
        (fun _ => some ⟨"old", 0⟩) ("u", "m2", "#ab:cd") = none
    ∧ writeSurfacesLastSeen md5demo "u" 7 [⟨"mod", "ab:cd", "desc"⟩]
        (fun _ => some ⟨"old", 0⟩) ("u", "m2", "#cd") = none
    ∧ writeSurfacesLastSeen md5demo "u" 7 [⟨"mod", "ab:cd", "desc"⟩]
        (fun _ => some ⟨"old", 0⟩) ("u", "m2", "#satellite-cd") = none := by
  refine ⟨List.mem_singleton.mpr rfl, ?_, ?_, ?_⟩
  · exact (surfaces_prune_legacy_rows md5demo "u" 7 _ _ _
      (List.mem_singleton.mpr rfl) "m2").1
  · exact ((surfaces_prune_legacy_rows md5demo "u" 7 _ _ _
      (List.mem_singleton.mpr rfl) "m2").2 "cd" (by decide)).1
  · exact ((surfaces_prune_legacy_rows md5demo "u" 7 _ _ _
      (List.mem_singleton.mpr rfl) "m2").2 "cd" (by decide)).2

/-- C3 counterexample: the surface last-seen row stores only a description
and a timestamp — no maxCount.  Two submissions with per-module surface
counts 1 and 2 leave byte-identical rows at the same `(subject, module,
serial)` key, so no reading of the stored row can equal the claimed
`max(existing maxCount, per-module count)` (which would be 1 and 2). -/
theorem surfaces_last_seen_no_max_count :
    ¬ ∃ f : SurfaceLastSeenRow → Int,
      (∀ r, writeSurfacesLastSeen md5demo "u" 5 [⟨"m", "sn", "d"⟩]
          (fun _ => none) ("u", "m", "sn") = some r → f r = 1)
      ∧ (∀ r, writeSurfacesLastSeen md5demo "u" 5 [⟨"m", "sn", "d"⟩, ⟨"m", "sn2", "d"⟩]
          (fun _ => none) ("u", "m", "sn") = some r → f r = 2) := by
  rintro ⟨f, h1, h2⟩
  have e1 : writeSurfacesLastSeen md5demo "u" 5 [⟨"m", "sn", "d"⟩]
      (fun _ => none) ("u", "m", "sn") = some ⟨"d", 5⟩ := by decide
  have e2 : writeSurfacesLastSeen md5demo "u" 5 [⟨"m", "sn", "d"⟩, ⟨"m", "sn2", "d"⟩]
      (fun _ => none) ("u", "m", "sn") = some ⟨"d", 5⟩ := by decide
  exact absurd ((h1 _ e1).symm.trans (h2 _ e2)) (by decide)

/-- C3 (amended): for the last submitted surface with a given truncated
`(moduleId, serial)` key whose truncated serial is not among the collected
legacy hashes, the last-seen row holds `lastSeenAt = now` and the description
passed through the canonicalization table; no per-surface maxCount exists. -/
theorem surfaces_last_seen_updates (md5 : String → String) (machineId : String) (now : Int)
    (pre post : List Surface) (s : Surface)
    (db : Table (String × String × String) SurfaceLastSeenRow)
    (hpost : ∀ t ∈ post,
      ¬ (strTake t.moduleId 128 = strTake s.moduleId 128 ∧ strTake t.id 64 = strTake s.id 64))
    (hnp : strTake s.id 64 ∉ pruneList md5 (pre ++ s :: post)) :
    writeSurfacesLastSeen md5 machineId now (pre ++ s :: post) db
        (machineId, strTake s.moduleId 128, strTake s.id 64)
      = some ⟨strTake (translateDescription s.description) 128, now⟩ := by
  have hdb : (((pre ++ s :: post).foldl (lastSeenStep md5 machineId now) (db, [])).1)
      (machineId, strTake s.moduleId 128, strTake s.id 64)
      = some ⟨strTake (translateDescription s.description) 128, now⟩ := by
    rw [lastSeen_fold_db]
    rw [foldl_mapWrite_apply
      (fun t : Surface => (machineId, strTake t.moduleId 128, strTake t.id 64))
      (fun t : Surface =>
        (⟨strTake (translateDescription t.description) 128, now⟩ : SurfaceLastSeenRow))]
    rw [findLastA_append]
    have hpostnone : findLastA
        (fun t : Surface => decide ((machineId, strTake t.moduleId 128, strTake t.id 64)
          = (machineId, strTake s.moduleId 128, strTake s.id 64))) post = none := by
      apply findLastA_eq_none
      intro t ht
      simp only [decide_eq_false_iff_not]
      intro hcontra
      exact hpost t ht ⟨congrArg (fun k => k.2.1) hcontra, congrArg (fun k => k.2.2) hcontra⟩
    rw [findLastA]
    rw [hpostnone]
    simp
  unfold writeSurfacesLastSeen
  rw [lastSeen_fold_prune md5 machineId now _ db []]
  rw [List.nil_append]
  by_cases hemp : (pruneList md5 (pre ++ s :: post)).isEmpty = true
  · rw [if_pos hemp]
    exact hdb
  · rw [if_neg hemp]
    show (if (machineId, strTake s.moduleId 128, strTake s.id 64).1 = machineId
        ∧ listContains (pruneList md5 (pre ++ s :: post))
            (machineId, strTake s.moduleId 128, strTake s.id 64).2.2
        then none
        else ((pre ++ s :: post).foldl (lastSeenStep md5 machineId now) (db, [])).1
          (machineId, strTake s.moduleId 128, strTake s.id 64))
      = some ⟨strTake (translateDescription s.description) 128, now⟩
    rw [if_neg]
    · exact hdb
    · rintro ⟨-, hc⟩
      exact hnp ((listContains_iff _ _).mp hc)

/-- C3 witness: a single-surface submission whose description is in the
canonicalization table. -/
theorem surfaces_last_seen_updates_witness :
    (∀ t ∈ ([] : List Surface),
      ¬ (strTake t.moduleId 128 = strTake "elgato" 128 ∧ strTake t.id 64 = strTake "sn" 64))
    ∧ strTake "sn" 64 ∉ pruneList md5demo [⟨"elgato", "sn", "Stream Deck XL"⟩]
    ∧ writeSurfacesLastSeen md5demo "u" 42 [⟨"elgato", "sn", "Stream Deck XL"⟩]
        (fun _ => none) ("u", strTake "elgato" 128, strTake "sn" 64)
      = some ⟨strTake (translateDescription "Stream Deck XL") 128, 42⟩ :=
  ⟨fun t ht => absurd ht (List.not_mem_nil t),
    by decide,
    surfaces_last_seen_updates md5demo "u" 42 [] [] ⟨"elgato", "sn", "Stream Deck XL"⟩
      (fun _ => none) (fun t ht => absurd ht (List.not_mem_nil t)) (by decide)⟩

/-! ## Idempotence: the surfaces daily writer -/

theorem writeSurfacesDailyUsage_apply (machineId : String) (day : Nat)
    (surfaces : List Surface) (db : Table (Nat × String × String) Int)
    (k : Nat × String × String) :
    writeSurfacesDailyUsage machineId day surfaces db k
      = ((findLastA (fun mc => decide ((day, machineId, strTake mc.1 128) = k))
            (buildModuleCounts surfaces)).map
          (fun mc => max ((db (day, machineId, mc.1)).getD 0) mc.2)).or (db k) := by
  unfold writeSurfacesDailyUsage
  exact foldl_mapWrite_apply (fun mc : String × Int => (day, machineId, strTake mc.1 128))
    (fun mc : String × Int => max ((db (day, machineId, mc.1)).getD 0) mc.2)
    (buildModuleCounts surfaces) db k

theorem strTake_data_length (s : String) (n : Nat) :
    (strTake s n).data.length ≤ n := by
  show (s.data.take n).length ≤ n
  rw [List.length_take]
  omega

theorem strTake_eq_self {s : String} {n : Nat} (h : s.data.length ≤ n) :
    strTake s n = s :=
  congrArg (fun l => (⟨l⟩ : String)) (List.take_of_length_le h)

theorem writeSurfacesDailyUsage_idem (machineId : String) (day : Nat)
    (surfaces : List Surface) (db : Table (Nat × String × String) Int) :
    writeSurfacesDailyUsage machineId day surfaces
        (writeSurfacesDailyUsage machineId day surfaces db)
      = writeSurfacesDailyUsage machineId day surfaces db := by
  funext k
  rw [writeSurfacesDailyUsage_apply machineId day surfaces
    (writeSurfacesDailyUsage machineId day surfaces db) k]
  cases hfl : findLastA (fun mc => decide ((day, machineId, strTake mc.1 128) = k))
      (buildModuleCounts surfaces) with
  | none => rfl
  | some mc =>
    obtain ⟨hmem, hkey⟩ := findLastA_mem _ hfl
    have hk : (day, machineId, strTake mc.1 128) = k := of_decide_eq_true hkey
    have hdb1k : writeSurfacesDailyUsage machineId day surfaces db k
        = some (max ((db (day, machineId, mc.1)).getD 0) mc.2) := by
      rw [writeSurfacesDailyUsage_apply, hfl]
      rfl
    show some (max ((writeSurfacesDailyUsage machineId day surfaces db
        (day, machineId, mc.1)).getD 0) mc.2)
      = writeSurfacesDailyUsage machineId day surfaces db k
    by_cases hlen : mc.1.data.length ≤ 128
    · have heq : strTake mc.1 128 = mc.1 := strTake_eq_self hlen
      have h2 : ((day, machineId, mc.1) : Nat × String × String) = k := heq ▸ hk
      rw [h2, hdb1k]
      simp [max_assoc]
    · have hnone : findLastA
          (fun mc2 => decide ((day, machineId, strTake mc2.1 128)
            = ((day, machineId, mc.1) : Nat × String × String)))
          (buildModuleCounts surfaces) = none := by
        apply findLastA_eq_none
        intro a _
        simp only [decide_eq_false_iff_not]
        intro hcontra
        have h3 : strTake a.1 128 = mc.1 := congrArg (fun p => p.2.2) hcontra
        have h4 := strTake_data_length a.1 128
        rw [h3] at h4
        omega
      have hdb1m : writeSurfacesDailyUsage machineId day surfaces db (day, machineId, mc.1)
          = db (day, machineId, mc.1) := by
        rw [writeSurfacesDailyUsage_apply, hnone]
        rfl
      rw [hdb1m, hdb1k]

/-! ## Idempotence: the connections writer

The registry lookups of `getOrCreateModuleRowId` are stable under extending
the `knownModule` table, and a second identical pass over the connections
creates nothing and reproduces the same row ids. -/

theorem regFindIdx_append {reg : List (String × String)} {name ver : String} {i : Nat}
    (h : regFindIdx reg name ver = some i) (ext : List (String × String)) :
    regFindIdx (reg ++ ext) name ver = some i := by
  induction reg generalizing i with
  | nil => simp [regFindIdx] at h
  | cons p rest ih =>
    obtain ⟨n, v⟩ := p
    rw [regFindIdx] at h
    rw [List.cons_append, regFindIdx]
    by_cases hc : n = name ∧ v = ver
    · rw [if_pos hc] at h ⊢
      exact h
    · rw [if_neg hc] at h ⊢
      cases hr : regFindIdx rest name ver with
      | none =>
        rw [hr] at h
        cases h
      | some j =>
        rw [hr] at h
        rw [ih hr]
        exact h

theorem regFindIdx_append_self (reg : List (String × String)) (name ver : String)
    (h : regFindIdx reg name ver = none) :
    regFindIdx (reg ++ [(name, ver)]) name ver = some reg.length := by
  induction reg with
  | nil => simp [regFindIdx]
  | cons p rest ih =>
    obtain ⟨n, v⟩ := p
    rw [regFindIdx] at h
    rw [List.cons_append, regFindIdx]
    by_cases hc : n = name ∧ v = ver
    · rw [if_pos hc] at h
      cases h
    · rw [if_neg hc] at h ⊢
      cases hr : regFindIdx rest name ver with
      | some j =>
        rw [hr] at h
        cases h
      | none =>
        rw [ih hr]
        rfl

theorem getOrCreateModuleRowId_extends (reg : List (String × String)) (moduleName : String)
    (version0 : Option String) :
    ∃ ext, (getOrCreateModuleRowId reg moduleName version0).1 = reg ++ ext := by
  simp only [getOrCreateModuleRowId]
  cases h : regFindIdx reg moduleName (storedVersion version0) with
  | some i => exact ⟨[], (List.append_nil reg).symm⟩
  | none => exact ⟨[(moduleName, storedVersion version0)], rfl⟩

theorem getOrCreateModuleRowId_post (reg : List (String × String)) (moduleName : String)
    (version0 : Option String) :
    regFindIdx (getOrCreateModuleRowId reg moduleName version0).1 moduleName
        (storedVersion version0)
      = some (getOrCreateModuleRowId reg moduleName version0).2 := by
  simp only [getOrCreateModuleRowId]
  cases h : regFindIdx reg moduleName (storedVersion version0) with
  | some i => exact h
  | none => exact regFindIdx_append_self reg moduleName (storedVersion version0) h

theorem getOrCreateModuleRowId_found {reg : List (String × String)} {moduleName : String}
    {version0 : Option String} {i : Nat}
    (h : regFindIdx reg moduleName (storedVersion version0) = some i) :
    getOrCreateModuleRowId reg moduleName version0 = (reg, i) := by
  simp only [getOrCreateModuleRowId]
  rw [h]

/-- The registry evolution and `(rowId, count)` write list of the per-version
loop of one connection, separated from the store writes (which read only the
snapshots fixed at the start of `writeConnectionsUsage`). -/
def countsRegWrites (moduleName : String) :
    List (String × String) → List (String × Int) →
      List (String × String) × List (Nat × Int)
  | reg, [] => (reg, [])
  | reg, vc :: rest =>
    let r := getOrCreateModuleRowId reg moduleName (some vc.1)
    let q := countsRegWrites moduleName r.1 rest
    (q.1, (r.2, vc.2) :: q.2)

/-- The registry evolution and write list of the whole connections loop. -/
def connRegWrites :
    List (String × String) → List Connection →
      List (String × String) × List (Nat × Int)
  | reg, [] => (reg, [])
  | reg, conn :: rest =>
    let moduleName := strTake conn.moduleId 128
    let r := getOrCreateModuleRowId reg moduleName none
    let q := countsRegWrites moduleName r.1 conn.counts
    let q2 := connRegWrites q.1 rest
    (q2.1, (r.2, totalInstances conn.counts) :: (q.2 ++ q2.2))

theorem countsRegWrites_stable (moduleName : String) (counts : List (String × Int))
    (reg : List (String × String)) :
    (∃ ext, (countsRegWrites moduleName reg counts).1 = reg ++ ext)
    ∧ (∀ ext2, countsRegWrites moduleName ((countsRegWrites moduleName reg counts).1 ++ ext2)
          counts
        = ((countsRegWrites moduleName reg counts).1 ++ ext2,
            (countsRegWrites moduleName reg counts).2)) := by
  induction counts generalizing reg with
  | nil => exact ⟨⟨[], (List.append_nil reg).symm⟩, fun ext2 => rfl⟩
  | cons vc rest ih =>
    obtain ⟨e1, he1⟩ := getOrCreateModuleRowId_extends reg moduleName (some vc.1)
    obtain ⟨⟨e2, he2⟩, hstab⟩ := ih (getOrCreateModuleRowId reg moduleName (some vc.1)).1
    have hunfold : countsRegWrites moduleName reg (vc :: rest)
        = ((countsRegWrites moduleName
              (getOrCreateModuleRowId reg moduleName (some vc.1)).1 rest).1,
            ((getOrCreateModuleRowId reg moduleName (some vc.1)).2, vc.2)
              :: (countsRegWrites moduleName
                  (getOrCreateModuleRowId reg moduleName (some vc.1)).1 rest).2) := rfl
    constructor
    · refine ⟨e1 ++ e2, ?_⟩
      rw [hunfold]
      show (countsRegWrites moduleName
          (getOrCreateModuleRowId reg moduleName (some vc.1)).1 rest).1
        = reg ++ (e1 ++ e2)
      rw [he2, he1, List.append_assoc]
    · intro ext2
      rw [hunfold]
      have hfound : regFindIdx
          ((countsRegWrites moduleName
              (getOrCreateModuleRowId reg moduleName (some vc.1)).1 rest).1 ++ ext2)
            moduleName (storedVersion (some vc.1))
          = some (getOrCreateModuleRowId reg moduleName (some vc.1)).2 := by
        have hstep := getOrCreateModuleRowId_post reg moduleName (some vc.1)
        have h3 : (countsRegWrites moduleName
            (getOrCreateModuleRowId reg moduleName (some vc.1)).1 rest).1 ++ ext2
            = (getOrCreateModuleRowId reg moduleName (some vc.1)).1 ++ (e2 ++ ext2) := by
          rw [he2, List.append_assoc]
        rw [h3]
        exact regFindIdx_append hstep (e2 ++ ext2)
      show countsRegWrites moduleName
          ((countsRegWrites moduleName
              (getOrCreateModuleRowId reg moduleName (some vc.1)).1 rest).1 ++ ext2)
          (vc :: rest) = _
      have hgoc := getOrCreateModuleRowId_found hfound
      have hrest := hstab ext2
      show ((countsRegWrites moduleName
            (getOrCreateModuleRowId
              ((countsRegWrites moduleName
                  (getOrCreateModuleRowId reg moduleName (some vc.1)).1 rest).1 ++ ext2)
              moduleName (some vc.1)).1 rest).1,
          ((getOrCreateModuleRowId
              ((countsRegWrites moduleName
                  (getOrCreateModuleRowId reg moduleName (some vc.1)).1 rest).1 ++ ext2)
              moduleName (some vc.1)).2, vc.2)
            :: (countsRegWrites moduleName
                (getOrCreateModuleRowId
                  ((countsRegWrites moduleName
                      (getOrCreateModuleRowId reg moduleName (some vc.1)).1 rest).1 ++ ext2)
                  moduleName (some vc.1)).1 rest).2) = _
      rw [hgoc]
      rw [hrest]

theorem connRegWrites_stable (conns : List Connection) (reg : List (String × String)) :
    (∃ ext, (connRegWrites reg conns).1 = reg ++ ext)
    ∧ (∀ ext2, connRegWrites ((connRegWrites reg conns).1 ++ ext2) conns
        = ((connRegWrites reg conns).1 ++ ext2, (connRegWrites reg conns).2)) := by
  induction conns generalizing reg with
  | nil => exact ⟨⟨[], (List.append_nil reg).symm⟩, fun ext2 => rfl⟩
  | cons conn rest ih =>
    obtain ⟨e1, he1⟩ :=
      getOrCreateModuleRowId_extends reg (strTake conn.moduleId 128) none
    obtain ⟨⟨e2, he2⟩, hstab2⟩ := countsRegWrites_stable (strTake conn.moduleId 128)
      conn.counts (getOrCreateModuleRowId reg (strTake conn.moduleId 128) none).1
    obtain ⟨⟨e3, he3⟩, hstab3⟩ := ih
      (countsRegWrites (strTake conn.moduleId 128)
        (getOrCreateModuleRowId reg (strTake conn.moduleId 128) none).1 conn.counts).1
    constructor
    · refine ⟨e1 ++ (e2 ++ e3), ?_⟩
      simp only [connRegWrites]
      rw [he3, he2, he1, List.append_assoc, List.append_assoc]
    · intro ext2
      have hgoc : getOrCreateModuleRowId
          ((connRegWrites
              (countsRegWrites (strTake conn.moduleId 128)
                (getOrCreateModuleRowId reg (strTake conn.moduleId 128) none).1
                conn.counts).1 rest).1 ++ ext2)
          (strTake conn.moduleId 128) none
          = ((connRegWrites
              (countsRegWrites (strTake conn.moduleId 128)
                (getOrCreateModuleRowId reg (strTake conn.moduleId 128) none).1
                conn.counts).1 rest).1 ++ ext2,
            (getOrCreateModuleRowId reg (strTake conn.moduleId 128) none).2) := by
        apply getOrCreateModuleRowId_found
        have hA : (connRegWrites
            (countsRegWrites (strTake conn.moduleId 128)
              (getOrCreateModuleRowId reg (strTake conn.moduleId 128) none).1
              conn.counts).1 rest).1 ++ ext2
            = (getOrCreateModuleRowId reg (strTake conn.moduleId 128) none).1
              ++ (e2 ++ (e3 ++ ext2)) := by
          rw [he3, he2, List.append_assoc, List.append_assoc]
        rw [hA]
        exact regFindIdx_append
          (getOrCreateModuleRowId_post reg (strTake conn.moduleId 128) none) _
      have hcounts : countsRegWrites (strTake conn.moduleId 128)
          ((connRegWrites
              (countsRegWrites (strTake conn.moduleId 128)
                (getOrCreateModuleRowId reg (strTake conn.moduleId 128) none).1
                conn.counts).1 rest).1 ++ ext2) conn.counts
          = ((connRegWrites
              (countsRegWrites (strTake conn.moduleId 128)
                (getOrCreateModuleRowId reg (strTake conn.moduleId 128) none).1
                conn.counts).1 rest).1 ++ ext2,
            (countsRegWrites (strTake conn.moduleId 128)
              (getOrCreateModuleRowId reg (strTake conn.moduleId 128) none).1
              conn.counts).2) := by
        have hB : (connRegWrites
            (countsRegWrites (strTake conn.moduleId 128)
              (getOrCreateModuleRowId reg (strTake conn.moduleId 128) none).1
              conn.counts).1 rest).1 ++ ext2
            = (countsRegWrites (strTake conn.moduleId 128)
                (getOrCreateModuleRowId reg (strTake conn.moduleId 128) none).1
                conn.counts).1 ++ (e3 ++ ext2) := by
          rw [he3, List.append_assoc]
        rw [hB]
        exact hstab2 (e3 ++ ext2)
      have hrest := hstab3 ext2
      simp only [connRegWrites]
      rw [hgoc]
      dsimp only
      rw [hcounts]
      dsimp only
      rw [hrest]

theorem countsFold_proj (snapDaily snapLastSeen : Nat → Option Int) (machineId : String)
    (day : Nat) (now : Int) (moduleName : String) (counts : List (String × Int))
    (st : UsageState) :
    (counts.foldl (fun stA vc =>
        let r2 := getOrCreateModuleRowId stA.knownModules moduleName (some vc.1)
        updateConnectionModuleCounts snapDaily snapLastSeen machineId day now r2.2 vc.2
          { stA with knownModules := r2.1 }) st)
      = { st with
          knownModules := (countsRegWrites moduleName st.knownModules counts).1
          moduleDailyUsage := (countsRegWrites moduleName st.knownModules counts).2.foldl
            (fun d w => mapWrite d (day, machineId, w.1)
              (max ((snapDaily w.1).getD 0) w.2)) st.moduleDailyUsage
          moduleUserLastSeen := (countsRegWrites moduleName st.knownModules counts).2.foldl
            (fun d w => mapWrite d (machineId, w.1)
              ⟨max ((snapLastSeen w.1).getD 0) w.2, now⟩) st.moduleUserLastSeen } := by
  induction counts generalizing st with
  | nil => rfl
  | cons vc rest ih =>
    rw [List.foldl_cons]
    rw [ih]
    rfl

theorem connFold_proj (snapDaily snapLastSeen : Nat → Option Int) (machineId : String)
    (day : Nat) (now : Int) (conns : List Connection) (st : UsageState) :
    conns.foldl (processConnection snapDaily snapLastSeen machineId day now) st
      = { st with
          knownModules := (connRegWrites st.knownModules conns).1
          moduleDailyUsage := (connRegWrites st.knownModules conns).2.foldl
            (fun d w => mapWrite d (day, machineId, w.1)
              (max ((snapDaily w.1).getD 0) w.2)) st.moduleDailyUsage
          moduleUserLastSeen := (connRegWrites st.knownModules conns).2.foldl
            (fun d w => mapWrite d (machineId, w.1)
              ⟨max ((snapLastSeen w.1).getD 0) w.2, now⟩) st.moduleUserLastSeen } := by
  induction conns generalizing st with
  | nil => rfl
  | cons conn rest ih =>
    rw [List.foldl_cons]
    show rest.foldl (processConnection snapDaily snapLastSeen machineId day now)
        (processConnection snapDaily snapLastSeen machineId day now st conn) = _
    have hproc : processConnection snapDaily snapLastSeen machineId day now st conn
        = conn.counts.foldl (fun stA vc =>
            let r2 := getOrCreateModuleRowId stA.knownModules
              (strTake conn.moduleId 128) (some vc.1)
            updateConnectionModuleCounts snapDaily snapLastSeen machineId day now r2.2 vc.2
              { stA with knownModules := r2.1 })
          (updateConnectionModuleCounts snapDaily snapLastSeen machineId day now
            (getOrCreateModuleRowId st.knownModules (strTake conn.moduleId 128) none).2
            (totalInstances conn.counts)
            { st with knownModules :=
                (getOrCreateModuleRowId st.knownModules (strTake conn.moduleId 128) none).1 })
        := rfl
    rw [hproc, countsFold_proj, ih]
    simp only [connRegWrites]
    rw [List.foldl_cons, List.foldl_cons, List.foldl_append, List.foldl_append]
    rfl

theorem writeConnectionsUsage_knownModules (machineId : String) (day : Nat) (now : Int)
    (conns : List Connection) (st : UsageState) :
    (writeConnectionsUsage machineId day now conns st).knownModules
      = (connRegWrites st.knownModules conns).1 := by
  unfold writeConnectionsUsage
  by_cases h : conns.isEmpty
  · rw [if_pos h]
    rw [List.isEmpty_iff.mp h]
    rfl
  · rw [if_neg h]
    rw [connFold_proj]

theorem writeConnectionsUsage_surfaces_untouched (machineId : String) (day : Nat) (now : Int)
    (conns : List Connection) (st : UsageState) :
    (writeConnectionsUsage machineId day now conns st).surfaceDailyUsage
        = st.surfaceDailyUsage
    ∧ (writeConnectionsUsage machineId day now conns st).surfaceUserLastSeen
        = st.surfaceUserLastSeen := by
  unfold writeConnectionsUsage
  by_cases h : conns.isEmpty
  · rw [if_pos h]
    exact ⟨rfl, rfl⟩
  · rw [if_neg h]
    rw [connFold_proj]
    exact ⟨rfl, rfl⟩

theorem writeConnectionsUsage_moduleDaily_apply (machineId : String) (day : Nat) (now : Int)
    (conns : List Connection) (st : UsageState) (k : Nat × String × Nat) :
    (writeConnectionsUsage machineId day now conns st).moduleDailyUsage k
      = ((findLastA (fun w => decide (((day, machineId, w.1) : Nat × String × Nat) = k))
            (connRegWrites st.knownModules conns).2).map
          (fun w => max ((st.moduleDailyUsage (day, machineId, w.1)).getD 0) w.2)).or
        (st.moduleDailyUsage k) := by
  unfold writeConnectionsUsage
  by_cases h : conns.isEmpty
  · rw [if_pos h]
    rw [List.isEmpty_iff.mp h]
    rfl
  · rw [if_neg h]
    rw [connFold_proj]
    show ((connRegWrites st.knownModules conns).2.foldl
        (fun d w => mapWrite d (day, machineId, w.1)
          (max (((fun rid => st.moduleDailyUsage (day, machineId, rid)) w.1).getD 0) w.2))
        st.moduleDailyUsage) k = _
    exact foldl_mapWrite_apply
      (fun w : Nat × Int => ((day, machineId, w.1) : Nat × String × Nat))
      (fun w : Nat × Int => max ((st.moduleDailyUsage (day, machineId, w.1)).getD 0) w.2)
      (connRegWrites st.knownModules conns).2 st.moduleDailyUsage k

theorem writeConnectionsUsage_moduleLastSeen_apply (machineId : String) (day : Nat)
    (now : Int) (conns : List Connection) (st : UsageState) (k : String × Nat) :
    (writeConnectionsUsage machineId day now conns st).moduleUserLastSeen k
      = ((findLastA (fun w => decide (((machineId, w.1) : String × Nat) = k))
            (connRegWrites st.knownModules conns).2).map
          (fun w => (⟨max (((st.moduleUserLastSeen (machineId, w.1)).map
              ModuleLastSeenRow.max_count).getD 0) w.2, now⟩ : ModuleLastSeenRow))).or
        (st.moduleUserLastSeen k) := by
  unfold writeConnectionsUsage
  by_cases h : conns.isEmpty
  · rw [if_pos h]
    rw [List.isEmpty_iff.mp h]
    rfl
  · rw [if_neg h]
    rw [connFold_proj]
    exact foldl_mapWrite_apply
      (fun w : Nat × Int => ((machineId, w.1) : String × Nat))
      (fun w : Nat × Int => (⟨max (((st.moduleUserLastSeen (machineId, w.1)).map
          ModuleLastSeenRow.max_count).getD 0) w.2, now⟩ : ModuleLastSeenRow))
      (connRegWrites st.knownModules conns).2 st.moduleUserLastSeen k

theorem writeSurfacesUsage_modules_untouched (md5 : String → String) (machineId : String)
    (day : Nat) (now : Int) (surfaces : List Surface) (st : UsageState) :
    (writeSurfacesUsage md5 machineId day now surfaces st).knownModules = st.knownModules
    ∧ (writeSurfacesUsage md5 machineId day now surfaces st).moduleDailyUsage
        = st.moduleDailyUsage
    ∧ (writeSurfacesUsage md5 machineId day now surfaces st).moduleUserLastSeen
        = st.moduleUserLastSeen := by
  unfold writeSurfacesUsage
  by_cases h : surfaces.isEmpty
  · rw [if_pos h]
    exact ⟨rfl, rfl, rfl⟩
  · rw [if_neg h]
    exact ⟨rfl, rfl, rfl⟩

theorem writeSurfacesUsage_surfaceDaily (md5 : String → String) (machineId : String)
    (day : Nat) (now : Int) (surfaces : List Surface) (st : UsageState) :
    (writeSurfacesUsage md5 machineId day now surfaces st).surfaceDailyUsage
      = if surfaces.isEmpty then st.surfaceDailyUsage
        else writeSurfacesDailyUsage machineId day surfaces st.surfaceDailyUsage := by
  unfold writeSurfacesUsage
  by_cases h : surfaces.isEmpty
  · rw [if_pos h, if_pos h]
  · rw [if_neg h, if_neg h]

/-- C2: submitting the identical usage report twice (same UTC day) leaves
every aggregate max count unchanged on the second call: the surfaces daily
max counts, the connections daily max counts, and the connections all-time
max counts.  (Surface last-seen rows carry no count; their `last_seen`
timestamp is refreshed, which the claim does not constrain.) -/
theorem writeUsageData_idempotent (md5 : String → String) (machineId : String) (day : Nat)
    (now1 now2 : Int) (surfaces : List Surface) (connections : List Connection)
    (st : UsageState) :
    (writeUsageData md5 machineId day now2 surfaces connections
        (writeUsageData md5 machineId day now1 surfaces connections st)).surfaceDailyUsage
      = (writeUsageData md5 machineId day now1 surfaces connections st).surfaceDailyUsage
    ∧ (writeUsageData md5 machineId day now2 surfaces connections
        (writeUsageData md5 machineId day now1 surfaces connections st)).moduleDailyUsage
      = (writeUsageData md5 machineId day now1 surfaces connections st).moduleDailyUsage
    ∧ ∀ k, ((writeUsageData md5 machineId day now2 surfaces connections
            (writeUsageData md5 machineId day now1 surfaces connections
              st)).moduleUserLastSeen k).map ModuleLastSeenRow.max_count
        = ((writeUsageData md5 machineId day now1 surfaces connections
            st).moduleUserLastSeen k).map ModuleLastSeenRow.max_count := by
  simp only [writeUsageData]
  set ST1 := writeConnectionsUsage machineId day now1 connections
    (writeSurfacesUsage md5 machineId day now1 surfaces st) with hST1
  have hkm : ST1.knownModules = (connRegWrites st.knownModules connections).1 := by
    rw [hST1, writeConnectionsUsage_knownModules,
      (writeSurfacesUsage_modules_untouched md5 machineId day now1 surfaces st).1]
  have hstab := (connRegWrites_stable connections st.knownModules).2 []
  rw [List.append_nil] at hstab
  have hchar1 : ∀ k2, ST1.moduleDailyUsage k2
      = ((findLastA (fun w => decide (((day, machineId, w.1) : Nat × String × Nat) = k2))
            (connRegWrites st.knownModules connections).2).map
          (fun w => max ((st.moduleDailyUsage (day, machineId, w.1)).getD 0) w.2)).or
        (st.moduleDailyUsage k2) := by
    intro k2
    rw [hST1, writeConnectionsUsage_moduleDaily_apply,
      (writeSurfacesUsage_modules_untouched md5 machineId day now1 surfaces st).1,
      (writeSurfacesUsage_modules_untouched md5 machineId day now1 surfaces st).2.1]
  have hchar1ls : ∀ k2, ST1.moduleUserLastSeen k2
      = ((findLastA (fun w => decide (((machineId, w.1) : String × Nat) = k2))
            (connRegWrites st.knownModules connections).2).map
          (fun w => (⟨max (((st.moduleUserLastSeen (machineId, w.1)).map
              ModuleLastSeenRow.max_count).getD 0) w.2, now1⟩ : ModuleLastSeenRow))).or
        (st.moduleUserLastSeen k2) := by
    intro k2
    rw [hST1, writeConnectionsUsage_moduleLastSeen_apply,
      (writeSurfacesUsage_modules_untouched md5 machineId day now1 surfaces st).1,
      (writeSurfacesUsage_modules_untouched md5 machineId day now1 surfaces st).2.2]
  refine ⟨?_, ?_, ?_⟩
  · rw [(writeConnectionsUsage_surfaces_untouched machineId day now2 connections _).1,
      writeSurfacesUsage_surfaceDaily]
    have hsd1 : ST1.surfaceDailyUsage
        = if surfaces.isEmpty then st.surfaceDailyUsage
          else writeSurfacesDailyUsage machineId day surfaces st.surfaceDailyUsage := by
      rw [hST1, (writeConnectionsUsage_surfaces_untouched machineId day now1 connections _).1,
        writeSurfacesUsage_surfaceDaily]
    by_cases h : surfaces.isEmpty
    · rw [if_pos h]
    · rw [if_neg h, hsd1, if_neg h]
      exact writeSurfacesDailyUsage_idem machineId day surfaces st.surfaceDailyUsage
  · funext k
    rw [writeConnectionsUsage_moduleDaily_apply,
      (writeSurfacesUsage_modules_untouched md5 machineId day now2 surfaces ST1).1,
      (writeSurfacesUsage_modules_untouched md5 machineId day now2 surfaces ST1).2.1,
      hkm, hstab]
    dsimp only
    cases hfl : findLastA
        (fun w => decide (((day, machineId, w.1) : Nat × String × Nat) = k))
        (connRegWrites st.knownModules connections).2 with
    | none => rfl
    | some w =>
      obtain ⟨hmem, hkey⟩ := findLastA_mem _ hfl
      have hk : ((day, machineId, w.1) : Nat × String × Nat) = k := of_decide_eq_true hkey
      show some (max ((ST1.moduleDailyUsage (day, machineId, w.1)).getD 0) w.2)
        = ST1.moduleDailyUsage k
      rw [hk, hchar1 k, hfl]
      simp [max_assoc]
  · intro k
    rw [writeConnectionsUsage_moduleLastSeen_apply,
      (writeSurfacesUsage_modules_untouched md5 machineId day now2 surfaces ST1).1,
      (writeSurfacesUsage_modules_untouched md5 machineId day now2 surfaces ST1).2.2,
      hkm, hstab]
    dsimp only
    cases hfl : findLastA
        (fun w => decide (((machineId, w.1) : String × Nat) = k))
        (connRegWrites st.knownModules connections).2 with
    | none => rfl
    | some w =>
      obtain ⟨hmem, hkey⟩ := findLastA_mem _ hfl
      have hk : ((machineId, w.1) : String × Nat) = k := of_decide_eq_true hkey
      show some (max (((ST1.moduleUserLastSeen (machineId, w.1)).map
          ModuleLastSeenRow.max_count).getD 0) w.2)
        = (ST1.moduleUserLastSeen k).map ModuleLastSeenRow.max_count
      rw [hk, hchar1ls k, hfl]
      simp [max_assoc]

/-! ## C1: the daily-max truncation mismatch -/

/-- A module id one character over the 128-character storage limit. -/
def longModuleName : String := ⟨List.replicate 129 'a'⟩

/-- C1 fails on the code: `writeSurfacesDailyUsage` reads the existing count
under the raw module name but writes under the truncated name, so with a
129-character module id a same-day submission reporting 3 surfaces then one
reporting 2 leaves the stored daily max at 2 — it decreased.  (The code's own
comment says max_counts are never decreased, so this is a code bug, not
intended behavior.) -/
theorem surfaces_daily_truncation_overwrites_down :
    writeSurfacesDailyUsage "u" 0
        [⟨longModuleName, "s1", "d"⟩, ⟨longModuleName, "s2", "d"⟩, ⟨longModuleName, "s3", "d"⟩]
        (fun _ => none) (0, "u", strTake longModuleName 128) = some 3
    ∧ writeSurfacesDailyUsage "u" 0
        [⟨longModuleName, "s1", "d"⟩, ⟨longModuleName, "s2", "d"⟩]
        (writeSurfacesDailyUsage "u" 0
          [⟨longModuleName, "s1", "d"⟩, ⟨longModuleName, "s2", "d"⟩, ⟨longModuleName, "s3", "d"⟩]
          (fun _ => none))
        (0, "u", strTake longModuleName 128) = some 2 := by
  constructor
  · rfl
  · rfl

end UpdatesApi
